import Mathlib

/-!
A verification development for the `solaris` flashloan-arbitrage instruction
codec (`src/instruction.rs`).  Byte buffers are modelled as `List Nat` whose
entries are below 256; `u64` values are modelled as `Nat` below `2 ^ 64`.
The Rust functions `FlashloanArbitrageInstruction::unpack`, `unpack_u64` and
`pack` are embedded as executable Lean functions, and the codec's contract
(round-trip, exact decode, failure taxonomy) is proved against them.
-/

namespace Solaris

/-- Modelled from the spec: the error enum `FlashloanArbitrageError` lives in
`crate::error`, a file not present in the sources; `src/instruction.rs` imports
its two variants `InvalidInstruction` and `InstructionUnpackError`, so the enum
is modelled here as an inductive with exactly those two (distinct)
constructors; the `From<FlashloanArbitrageError> for ProgramError` conversion
is modelled as preserving the variant. -/
inductive FlashloanArbitrageError where
  | InvalidInstruction
  | InstructionUnpackError
  deriving DecidableEq, Repr

/-- The instruction enum `FlashloanArbitrageInstruction` of
`src/instruction.rs`.  `u64` fields become `Nat` (values below `2 ^ 64` in
well-formed instructions), `Vec<u8>` becomes `List Nat`. -/
inductive FlashloanArbitrageInstruction where
  | InitFlashloanArbitrage
  | ExecuteOperation (amount : Nat)
  | FlashloanArbitrage (amount : Nat) (execute_operation_ix_data : List Nat)
      (expected_profit : Nat)
  deriving DecidableEq, Repr

/-- A list of naturals is a byte sequence when every entry is below 256. -/
def isBytes (l : List Nat) : Prop := ∀ b ∈ l, b < 256

instance (l : List Nat) : Decidable (isBytes l) := by
  unfold isBytes; infer_instance

/-- A `FlashloanArbitrageInstruction` is well formed when its `u64` fields are
below `2 ^ 64` and its byte payload holds bytes, as the Rust types guarantee. -/
def wf : FlashloanArbitrageInstruction → Prop
  | .InitFlashloanArbitrage => True
  | .ExecuteOperation amount => amount < 2 ^ 64
  | .FlashloanArbitrage amount d expected_profit =>
      amount < 2 ^ 64 ∧ expected_profit < 2 ^ 64 ∧ isBytes d

instance (op : FlashloanArbitrageInstruction) : Decidable (wf op) := by
  cases op <;> (unfold wf; infer_instance)

/-- Little-endian interpretation of a byte list, i.e. what
`u64::from_le_bytes` computes on an 8-byte array. -/
def fromLeBytes : List Nat → Nat
  | [] => 0
  | b :: rest => b + 256 * fromLeBytes rest

/-- The 8-byte little-endian encoding a `u64` value, i.e. what
`u64::to_le_bytes` produces. -/
def toLeBytes (n : Nat) : List Nat :=
  (List.range 8).map fun i => n / 256 ^ i % 256

/-- The `Option`-pipeline inside `unpack_u64`:
`amount.get(..8).and_then(|slice| slice.try_into().ok()).map(u64::from_le_bytes)`.
`get(..8)` yields the first 8 entries when the slice has at least 8, and
`<[u8; 8]>::try_from` succeeds exactly on slices of length 8. -/
def u64FieldOfSlice (amount : List Nat) : Option Nat :=
  (if 8 ≤ amount.length then some (amount.take 8) else none).bind
    (fun slice => if slice.length = 8 then some slice else none) |>.map fromLeBytes

/-- `FlashloanArbitrageInstruction::unpack_u64` (src/instruction.rs:80-92):
split off 8 bytes when at least 8 remain and read them little-endian,
otherwise fail with `InstructionUnpackError`. -/
def unpack_u64 (input : List Nat) :
    Except FlashloanArbitrageError (Nat × List Nat) :=
  if 8 ≤ input.length then
    let amount := input.take 8
    let rest := input.drop 8
    match u64FieldOfSlice amount with
    | some a => .ok (a, rest)
    | none => .error .InstructionUnpackError
  else
    .error .InstructionUnpackError

/-- `FlashloanArbitrageInstruction::unpack` (src/instruction.rs:57-78):
split off the tag byte (`InvalidInstruction` when the input is empty) and
dispatch on it; tags other than 0, 1, 2 fail with `InvalidInstruction`. -/
def unpack (input : List Nat) :
    Except FlashloanArbitrageError FlashloanArbitrageInstruction :=
  match input with
  | [] => .error .InvalidInstruction
  | tag :: rest =>
    match tag with
    | 0 => .ok .InitFlashloanArbitrage
    | 1 => do
        let (amount, _rest) ← unpack_u64 rest
        return .ExecuteOperation amount
    | 2 => do
        let (amount, rest) ← unpack_u64 rest
        let (expected_profit, execute_operation_ix_data_slice) ← unpack_u64 rest
        let execute_operation_ix_data := execute_operation_ix_data_slice
        return .FlashloanArbitrage amount execute_operation_ix_data expected_profit
    | _ => .error .InvalidInstruction

/-- `FlashloanArbitrageInstruction::pack` (src/instruction.rs:94-116):
push the discriminant, then the variant's fields (`u64`s little-endian,
the data vector verbatim). -/
def pack : FlashloanArbitrageInstruction → List Nat
  | .InitFlashloanArbitrage => [0]
  | .ExecuteOperation amount => 1 :: toLeBytes amount
  | .FlashloanArbitrage amount execute_operation_ix_data expected_profit =>
      2 :: (toLeBytes amount ++ toLeBytes expected_profit ++
        execute_operation_ix_data)

/-- The spec's failure taxonomy (spec.md section 7). -/
inductive SpecErrKind where
  | MissingTag
  | UnknownTag
  | TruncatedPayload
  deriving DecidableEq, Repr

/-- The spec-side classification of inputs into failure kinds, written from
the spec's taxonomy: `MissingTag` for the empty buffer, `TruncatedPayload`
for a known discriminant with too short a payload, `UnknownTag` for an
unrecognized discriminant, `none` on the success region. -/
def specErrKind (input : List Nat) : Option SpecErrKind :=
  match input with
  | [] => some .MissingTag
  | t :: _ =>
    if t = 0 then none
    else if t = 1 then
      if 9 ≤ input.length then none else some .TruncatedPayload
    else if t = 2 then
      if 17 ≤ input.length then none else some .TruncatedPayload
    else some .UnknownTag

/-- The error value the code reports for each spec failure kind:
`MissingTag` and `UnknownTag` both surface as `InvalidInstruction`,
`TruncatedPayload` as `InstructionUnpackError`. -/
def errOf : SpecErrKind → FlashloanArbitrageError
  | .MissingTag => .InvalidInstruction
  | .UnknownTag => .InvalidInstruction
  | .TruncatedPayload => .InstructionUnpackError

/-! ### Helper lemmas -/

theorem toLeBytes_length (n : Nat) : (toLeBytes n).length = 8 := by
  simp [toLeBytes]

theorem fromLeBytes_toLeBytes (n : Nat) : fromLeBytes (toLeBytes n) = n % 2 ^ 64 := by
  simp [toLeBytes, fromLeBytes, List.range_succ]
  omega

theorem toLeBytes_isBytes (n : Nat) : isBytes (toLeBytes n) := by
  simp only [isBytes, toLeBytes, List.mem_map, List.mem_range]
  rintro b ⟨i, -, rfl⟩
  exact Nat.mod_lt _ (by norm_num)

theorem u64FieldOfSlice_of_ge (l : List Nat) (h : 8 ≤ l.length) :
    u64FieldOfSlice l = some (fromLeBytes (l.take 8)) := by
  simp [u64FieldOfSlice, h, List.length_take]

theorem unpack_u64_of_ge (input : List Nat) (h : 8 ≤ input.length) :
    unpack_u64 input = .ok (fromLeBytes (input.take 8), input.drop 8) := by
  have h8 : 8 ≤ (input.take 8).length := by simp [List.length_take]; omega
  rw [unpack_u64, if_pos h]
  show (match u64FieldOfSlice (input.take 8) with
    | some a => Except.ok (a, input.drop 8)
    | none => Except.error FlashloanArbitrageError.InstructionUnpackError) = _
  rw [u64FieldOfSlice_of_ge _ h8, List.take_take]
  norm_num

theorem unpack_u64_of_lt (input : List Nat) (h : input.length < 8) :
    unpack_u64 input = .error .InstructionUnpackError := by
  rw [unpack_u64, if_neg (by omega)]

theorem unpack_u64_append (n : Nat) (rest : List Nat) :
    unpack_u64 (toLeBytes n ++ rest) = .ok (n % 2 ^ 64, rest) := by
  have h : 8 ≤ (toLeBytes n ++ rest).length := by
    simp [toLeBytes_length]
  rw [unpack_u64_of_ge _ h, ← toLeBytes_length n, List.take_left, List.drop_left,
    fromLeBytes_toLeBytes]

theorem unpack_nil : unpack [] = .error .InvalidInstruction := rfl

theorem unpack_tag0 (rest : List Nat) :
    unpack (0 :: rest) = .ok .InitFlashloanArbitrage := rfl

theorem unpack_unknown (t : Nat) (rest : List Nat) :
    unpack ((t + 3) :: rest) = .error .InvalidInstruction := rfl

theorem unpack_tag1_ok (rest : List Nat) (h : 8 ≤ rest.length) :
    unpack (1 :: rest) = .ok (.ExecuteOperation (fromLeBytes (rest.take 8))) := by
  rw [unpack, unpack_u64_of_ge _ h]
  rfl

theorem unpack_tag1_err (rest : List Nat) (h : rest.length < 8) :
    unpack (1 :: rest) = .error .InstructionUnpackError := by
  rw [unpack, unpack_u64_of_lt _ h]
  rfl

theorem unpack_tag2_ok (rest : List Nat) (h : 16 ≤ rest.length) :
    unpack (2 :: rest) =
      .ok (.FlashloanArbitrage (fromLeBytes (rest.take 8)) (rest.drop 16)
        (fromLeBytes ((rest.drop 8).take 8))) := by
  rw [unpack, unpack_u64_of_ge _ (by omega)]
  have h2 : 8 ≤ (rest.drop 8).length := by simp; omega
  show (do
    let (expected_profit, execute_operation_ix_data_slice) ← unpack_u64 (rest.drop 8)
    let execute_operation_ix_data := execute_operation_ix_data_slice
    return FlashloanArbitrageInstruction.FlashloanArbitrage (fromLeBytes (rest.take 8))
      execute_operation_ix_data expected_profit) = _
  rw [unpack_u64_of_ge _ h2, List.drop_drop]
  rfl

theorem unpack_tag2_err1 (rest : List Nat) (h : rest.length < 8) :
    unpack (2 :: rest) = .error .InstructionUnpackError := by
  rw [unpack, unpack_u64_of_lt _ h]
  rfl

theorem unpack_tag2_err2 (rest : List Nat) (h8 : 8 ≤ rest.length) (h : rest.length < 16) :
    unpack (2 :: rest) = .error .InstructionUnpackError := by
  rw [unpack, unpack_u64_of_ge _ h8]
  show (do
    let (expected_profit, execute_operation_ix_data_slice) ← unpack_u64 (rest.drop 8)
    let execute_operation_ix_data := execute_operation_ix_data_slice
    return FlashloanArbitrageInstruction.FlashloanArbitrage (fromLeBytes (rest.take 8))
      execute_operation_ix_data expected_profit) = _
  rw [unpack_u64_of_lt _ (by simp; omega)]
  rfl

/-! ### Claim theorems -/

/-- C1: Round-trip law — for every constructed (well-typed) instruction value
`op`, decoding the encoding reproduces `op` field-for-field:
`unpack (pack op)` succeeds and equals `op`. -/
theorem unpack_pack_roundtrip (op : FlashloanArbitrageInstruction) (h : wf op) :
    unpack (pack op) = .ok op := by
  cases op with
  | InitFlashloanArbitrage => rfl
  | ExecuteOperation amount =>
      have ha : amount < 2 ^ 64 := h
      rw [pack, unpack_tag1_ok _ (le_of_eq (toLeBytes_length amount).symm),
        List.take_of_length_le (le_of_eq (toLeBytes_length amount)),
        fromLeBytes_toLeBytes, Nat.mod_eq_of_lt ha]
  | FlashloanArbitrage amount d profit =>
      obtain ⟨ha, hp, -⟩ := h
      rw [pack, List.append_assoc, unpack, unpack_u64_append]
      show (do
        let (expected_profit, execute_operation_ix_data_slice) ←
          unpack_u64 (toLeBytes profit ++ d)
        let execute_operation_ix_data := execute_operation_ix_data_slice
        return FlashloanArbitrageInstruction.FlashloanArbitrage (amount % 2 ^ 64)
          execute_operation_ix_data expected_profit) = _
      rw [unpack_u64_append]
      show Except.ok (FlashloanArbitrageInstruction.FlashloanArbitrage (amount % 2 ^ 64)
        d (profit % 2 ^ 64)) = _
      rw [Nat.mod_eq_of_lt ha, Nat.mod_eq_of_lt hp]

/-- C1 witness. -/
theorem unpack_pack_roundtrip_witness :
    wf (.FlashloanArbitrage 500 [9, 9, 9] 10) ∧
    unpack (pack (.FlashloanArbitrage 500 [9, 9, 9] 10)) =
      .ok (.FlashloanArbitrage 500 [9, 9, 9] 10) :=
  ⟨by decide, unpack_pack_roundtrip _ (by decide)⟩

/-- C2: Exact Arbitrage decode — for every byte input of length `N ≥ 17`
whose first byte is 2, `unpack` succeeds with `FlashloanArbitrage` where
`amount` is the little-endian u64 of bytes 1..9, `expected_profit` the
little-endian u64 of bytes 9..17, and `execute_operation_ix_data` exactly
bytes 17..N (possibly empty). -/
theorem arbitrage_exact_decode (rest : List Nat) (hb : isBytes (2 :: rest))
    (hlen : 17 ≤ (2 :: rest).length) :
    unpack (2 :: rest) =
      .ok (.FlashloanArbitrage (fromLeBytes (((2 :: rest).drop 1).take 8))
        ((2 :: rest).drop 17)
        (fromLeBytes (((2 :: rest).drop 9).take 8))) := by
  have h : 16 ≤ rest.length := by
    simpa using hlen
  rw [unpack_tag2_ok rest h]
  rfl

/-- C2 witness: tag 2, amount 500, expected_profit 10, extra data [9, 9, 9]. -/
theorem arbitrage_exact_decode_witness :
    isBytes (2 :: [244, 1, 0, 0, 0, 0, 0, 0, 10, 0, 0, 0, 0, 0, 0, 0, 9, 9, 9]) ∧
    17 ≤ (2 :: [244, 1, 0, 0, 0, 0, 0, 0, 10, 0, 0, 0, 0, 0, 0, 0, 9, 9, 9]).length ∧
    unpack (2 :: [244, 1, 0, 0, 0, 0, 0, 0, 10, 0, 0, 0, 0, 0, 0, 0, 9, 9, 9]) =
      .ok (.FlashloanArbitrage
        (fromLeBytes (((2 :: [244, 1, 0, 0, 0, 0, 0, 0, 10, 0, 0, 0, 0, 0, 0, 0, 9, 9, 9]).drop 1).take 8))
        ((2 :: [244, 1, 0, 0, 0, 0, 0, 0, 10, 0, 0, 0, 0, 0, 0, 0, 9, 9, 9]).drop 17)
        (fromLeBytes (((2 :: [244, 1, 0, 0, 0, 0, 0, 0, 10, 0, 0, 0, 0, 0, 0, 0, 9, 9, 9]).drop 9).take 8))) :=
  ⟨by decide, by decide, arbitrage_exact_decode _ (by decide) (by decide)⟩

/-- C7: Trailing-byte tolerance — any input with first byte 0 decodes to
`InitFlashloanArbitrage` whatever follows, and any input with first byte 1 and
length ≥ 9 decodes to `ExecuteOperation` of the little-endian u64 of bytes
1..9, the result depending only on the first 9 bytes. -/
theorem trailing_byte_tolerance (rest : List Nat) (hb : isBytes rest) :
    unpack (0 :: rest) = .ok .InitFlashloanArbitrage ∧
    (8 ≤ rest.length →
      unpack (1 :: rest) = .ok (.ExecuteOperation (fromLeBytes (rest.take 8))) ∧
      unpack (1 :: rest) = unpack (1 :: rest.take 8)) := by
  refine ⟨rfl, fun h => ⟨unpack_tag1_ok rest h, ?_⟩⟩
  rw [unpack_tag1_ok rest h,
    unpack_tag1_ok (rest.take 8) (by simp [List.length_take]; omega),
    List.take_take]
  norm_num

/-- C7 witness. -/
theorem trailing_byte_tolerance_witness :
    isBytes [9, 9, 9, 9, 9, 9, 9, 9, 7] ∧
    (unpack (0 :: [9, 9, 9, 9, 9, 9, 9, 9, 7]) = .ok .InitFlashloanArbitrage ∧
    (8 ≤ [9, 9, 9, 9, 9, 9, 9, 9, 7].length →
      unpack (1 :: [9, 9, 9, 9, 9, 9, 9, 9, 7]) =
        .ok (.ExecuteOperation (fromLeBytes ([9, 9, 9, 9, 9, 9, 9, 9, 7].take 8))) ∧
      unpack (1 :: [9, 9, 9, 9, 9, 9, 9, 9, 7]) =
        unpack (1 :: [9, 9, 9, 9, 9, 9, 9, 9, 7].take 8))) :=
  ⟨by decide, trailing_byte_tolerance _ (by decide)⟩

/-- C8: Encode layout — `pack` is total and emits the discriminant followed
by the variant's fields: nothing for `Init`; the 8-byte little-endian
`amount` for `Execute` (length 9); and `amount`, `expected_profit` (each
8 bytes little-endian) then the data verbatim for `Arbitrage`
(length `17 + data.length`). -/
theorem pack_layout (a p : Nat) (d : List Nat) (ha : a < 2 ^ 64) (hp : p < 2 ^ 64) :
    pack .InitFlashloanArbitrage = [0] ∧
    pack (.ExecuteOperation a) = 1 :: toLeBytes a ∧
    (pack (.ExecuteOperation a)).length = 9 ∧
    pack (.FlashloanArbitrage a d p) = 2 :: (toLeBytes a ++ toLeBytes p ++ d) ∧
    (pack (.FlashloanArbitrage a d p)).length = 17 + d.length ∧
    (toLeBytes a).length = 8 ∧ isBytes (toLeBytes a) ∧ fromLeBytes (toLeBytes a) = a ∧
    (toLeBytes p).length = 8 ∧ isBytes (toLeBytes p) ∧ fromLeBytes (toLeBytes p) = p := by
  refine ⟨rfl, rfl, ?_, rfl, ?_, toLeBytes_length a, toLeBytes_isBytes a, ?_,
    toLeBytes_length p, toLeBytes_isBytes p, ?_⟩
  · simp [pack, toLeBytes_length]
  · simp [pack, toLeBytes_length]
    omega
  · rw [fromLeBytes_toLeBytes, Nat.mod_eq_of_lt ha]
  · rw [fromLeBytes_toLeBytes, Nat.mod_eq_of_lt hp]

/-- C8 witness. -/
theorem pack_layout_witness :
    500 < 2 ^ 64 ∧ 10 < 2 ^ 64 ∧
    (pack .InitFlashloanArbitrage = [0] ∧
    pack (.ExecuteOperation 500) = 1 :: toLeBytes 500 ∧
    (pack (.ExecuteOperation 500)).length = 9 ∧
    pack (.FlashloanArbitrage 500 [9, 9, 9] 10) =
      2 :: (toLeBytes 500 ++ toLeBytes 10 ++ [9, 9, 9]) ∧
    (pack (.FlashloanArbitrage 500 [9, 9, 9] 10)).length = 17 + [9, 9, 9].length ∧
    (toLeBytes 500).length = 8 ∧ isBytes (toLeBytes 500) ∧
    fromLeBytes (toLeBytes 500) = 500 ∧
    (toLeBytes 10).length = 8 ∧ isBytes (toLeBytes 10) ∧
    fromLeBytes (toLeBytes 10) = 10) :=
  ⟨by decide, by decide, pack_layout 500 10 [9, 9, 9] (by decide) (by decide)⟩

/-- C9: on any slice of length at least 8, `unpack_u64` succeeds with the
little-endian u64 of the first 8 bytes and the remaining suffix; the inner
`ok_or` guard after `split_at(8)` is unreachable under that precondition. -/
theorem unpack_u64_total (input : List Nat) (hb : isBytes input) (h : 8 ≤ input.length) :
    unpack_u64 input = .ok (fromLeBytes (input.take 8), input.drop 8) ∧
    u64FieldOfSlice (input.take 8) ≠ none := by
  refine ⟨unpack_u64_of_ge input h, ?_⟩
  rw [u64FieldOfSlice_of_ge _ (by simp [List.length_take]; omega)]
  simp

/-- C9 witness. -/
theorem unpack_u64_total_witness :
    isBytes [255, 255, 255, 255, 255, 255, 255, 255, 1] ∧
    8 ≤ [255, 255, 255, 255, 255, 255, 255, 255, 1].length ∧
    (unpack_u64 [255, 255, 255, 255, 255, 255, 255, 255, 1] =
      .ok (fromLeBytes ([255, 255, 255, 255, 255, 255, 255, 255, 1].take 8),
        [255, 255, 255, 255, 255, 255, 255, 255, 1].drop 8) ∧
    u64FieldOfSlice ([255, 255, 255, 255, 255, 255, 255, 255, 1].take 8) ≠ none) :=
  ⟨by decide, by decide, unpack_u64_total _ (by decide) (by decide)⟩

/-- C4: Truncation failure — an input with first byte 1 and total length
below 9, or first byte 2 and total length below 17, fails with the
`TruncatedPayload` kind (surfaced as `InstructionUnpackError`). -/
theorem truncated_payload_failure (t : Nat) (rest : List Nat) (hb : isBytes (t :: rest))
    (h : (t = 1 ∧ (t :: rest).length < 9) ∨ (t = 2 ∧ (t :: rest).length < 17)) :
    unpack (t :: rest) = .error (errOf .TruncatedPayload) ∧
    specErrKind (t :: rest) = some .TruncatedPayload := by
  rcases h with ⟨rfl, hl⟩ | ⟨rfl, hl⟩
  · have hr : rest.length < 8 := by simp at hl; omega
    refine ⟨unpack_tag1_err rest hr, ?_⟩
    simp [specErrKind]
    omega
  · have hr : rest.length < 16 := by simp at hl; omega
    refine ⟨?_, ?_⟩
    · rcases Nat.lt_or_ge rest.length 8 with h8 | h8
      · exact unpack_tag2_err1 rest h8
      · exact unpack_tag2_err2 rest h8 hr
    · simp [specErrKind]
      omega

/-- C4 witness: tag 2 followed by 8 zero bytes (expected_profit missing). -/
theorem truncated_payload_failure_witness :
    isBytes (2 :: [0, 0, 0, 0, 0, 0, 0, 0]) ∧
    ((2 = 1 ∧ (2 :: [0, 0, 0, 0, 0, 0, 0, 0]).length < 9) ∨
      (2 = 2 ∧ (2 :: [0, 0, 0, 0, 0, 0, 0, 0]).length < 17)) ∧
    (unpack (2 :: [0, 0, 0, 0, 0, 0, 0, 0]) = .error (errOf .TruncatedPayload) ∧
    specErrKind (2 :: [0, 0, 0, 0, 0, 0, 0, 0]) = some .TruncatedPayload) :=
  ⟨by decide, by decide, truncated_payload_failure 2 _ (by decide) (by decide)⟩

/-- C5: Empty input failure — `unpack []` fails with the `MissingTag` kind
(surfaced as `InvalidInstruction`), and the empty buffer is the only input
classified as a `MissingTag` failure. -/
theorem missing_tag_empty_only :
    unpack [] = .error (errOf .MissingTag) ∧
    ∀ input : List Nat, specErrKind input = some .MissingTag ↔ input = [] := by
  refine ⟨rfl, fun input => ?_⟩
  cases input with
  | nil => simp [specErrKind]
  | cons t rest =>
      simp only [specErrKind]
      split_ifs <;> simp

/-- C6: Unknown discriminant failure — a non-empty input whose first byte is
none of 0, 1, 2 fails with the `UnknownTag` kind (surfaced as
`InvalidInstruction`), regardless of the remaining bytes. -/
theorem unknown_tag_failure (t : Nat) (rest : List Nat) (hb : isBytes (t :: rest))
    (h0 : t ≠ 0) (h1 : t ≠ 1) (h2 : t ≠ 2) :
    unpack (t :: rest) = .error (errOf .UnknownTag) ∧
    specErrKind (t :: rest) = some .UnknownTag := by
  obtain ⟨k, rfl⟩ : ∃ k, t = k + 3 := ⟨t - 3, by omega⟩
  refine ⟨unpack_unknown k rest, ?_⟩
  simp [specErrKind]

/-- C6 witness. -/
theorem unknown_tag_failure_witness :
    isBytes (255 :: [0, 0, 0, 0, 0, 0, 0, 0]) ∧
    (255 : Nat) ≠ 0 ∧ (255 : Nat) ≠ 1 ∧ (255 : Nat) ≠ 2 ∧
    (unpack (255 :: [0, 0, 0, 0, 0, 0, 0, 0]) = .error (errOf .UnknownTag) ∧
    specErrKind (255 :: [0, 0, 0, 0, 0, 0, 0, 0]) = some .UnknownTag) :=
  ⟨by decide, by decide, by decide, by decide,
    unknown_tag_failure 255 _ (by decide) (by decide) (by decide) (by decide)⟩

/-- C10: Error-value collapse — the code reports the same error value,
`InvalidInstruction`, for the empty input as for an unrecognized first byte,
so the spec's `MissingTag` and `UnknownTag` kinds are indistinguishable to a
caller; only the truncation failure, `InstructionUnpackError`, is a distinct
value. -/
theorem error_value_collapse :
    unpack [] = .error .InvalidInstruction ∧
    (∀ t rest, t ≠ 0 → t ≠ 1 → t ≠ 2 →
      unpack (t :: rest) = .error .InvalidInstruction) ∧
    (∀ rest : List Nat, rest.length < 8 →
      unpack (1 :: rest) = .error .InstructionUnpackError) ∧
    FlashloanArbitrageError.InvalidInstruction ≠ .InstructionUnpackError := by
  refine ⟨rfl, fun t rest h0 h1 h2 => ?_,
    fun rest h => unpack_tag1_err rest h, by decide⟩
  obtain ⟨k, rfl⟩ : ∃ k, t = k + 3 := ⟨t - 3, by omega⟩
  exact unpack_unknown k rest

/-- C3: Total success/failure characterization — `unpack` succeeds exactly
when the input is non-empty and starts with byte 0, with byte 1 and total
length at least 9, or with byte 2 and total length at least 17; on every
other input it fails with exactly one of the spec's three error kinds
(reported as the corresponding error value), never with partial success. -/
theorem unpack_success_characterization (input : List Nat) (hb : isBytes input) :
    ((∃ op, unpack input = .ok op) ↔
      (input.head? = some 0 ∨ (input.head? = some 1 ∧ 9 ≤ input.length) ∨
        (input.head? = some 2 ∧ 17 ≤ input.length))) ∧
    ((¬ ∃ op, unpack input = .ok op) →
      ∃ k, specErrKind input = some k ∧ unpack input = .error (errOf k)) := by
  cases input with
  | nil =>
      exact ⟨by simp [unpack_nil], fun _ => ⟨.MissingTag, rfl, rfl⟩⟩
  | cons t rest =>
      by_cases h0 : t = 0
      · subst h0
        refine ⟨?_, fun h => absurd ⟨_, unpack_tag0 rest⟩ h⟩
        simp [unpack_tag0]
      · by_cases h1 : t = 1
        · subst h1
          rcases Nat.lt_or_ge rest.length 8 with hl | hl
          · refine ⟨?_, fun _ => ⟨.TruncatedPayload, ?_, unpack_tag1_err rest hl⟩⟩
            · rw [unpack_tag1_err rest hl]
              simp
              omega
            · simp [specErrKind]
              omega
          · refine ⟨?_, fun h => absurd ⟨_, unpack_tag1_ok rest hl⟩ h⟩
            rw [unpack_tag1_ok rest hl]
            simp
            omega
        · by_cases h2 : t = 2
          · subst h2
            rcases Nat.lt_or_ge rest.length 8 with hl | hl
            · refine ⟨?_, fun _ => ⟨.TruncatedPayload, ?_, unpack_tag2_err1 rest hl⟩⟩
              · rw [unpack_tag2_err1 rest hl]
                simp
                omega
              · simp [specErrKind]
                omega
            · rcases Nat.lt_or_ge rest.length 16 with hl2 | hl2
              · refine ⟨?_, fun _ => ⟨.TruncatedPayload, ?_, unpack_tag2_err2 rest hl hl2⟩⟩
                · rw [unpack_tag2_err2 rest hl hl2]
                  simp
                  omega
                · simp [specErrKind]
                  omega
              · refine ⟨?_, fun h => absurd ⟨_, unpack_tag2_ok rest hl2⟩ h⟩
                rw [unpack_tag2_ok rest hl2]
                simp
                omega
          · obtain ⟨k, rfl⟩ : ∃ k, t = k + 3 := ⟨t - 3, by omega⟩
            refine ⟨?_, fun _ => ⟨.UnknownTag, ?_, unpack_unknown k rest⟩⟩
            · rw [unpack_unknown k rest]
              simp
            · simp [specErrKind]

/-- C3 witness: `[1, 1, 2, 3]` (tag 1, payload shorter than 8 bytes). -/
theorem unpack_success_characterization_witness :
    isBytes [1, 1, 2, 3] ∧
    (((∃ op, unpack [1, 1, 2, 3] = .ok op) ↔
      ([1, 1, 2, 3].head? = some 0 ∨
        ([1, 1, 2, 3].head? = some 1 ∧ 9 ≤ [1, 1, 2, 3].length) ∨
        ([1, 1, 2, 3].head? = some 2 ∧ 17 ≤ [1, 1, 2, 3].length))) ∧
    ((¬ ∃ op, unpack [1, 1, 2, 3] = .ok op) →
      ∃ k, specErrKind [1, 1, 2, 3] = some k ∧
        unpack [1, 1, 2, 3] = .error (errOf k))) :=
  ⟨by decide, unpack_success_characterization _ (by decide)⟩

end Solaris
